import Mathlib

/-!
Verification of the Git Operation Service of the mywebgit repository.

The source is JavaScript (src/server/src/services/gitService.js and the
route handlers in src/server/src/routes).  The shallow embedding below
translates the relevant functions into pure Lean functions.  The external
git tool is modelled as an explicit parameter: a call that can fail is an
`Except String` value handed to the function under verification, and
stateful reads of the repository are explicit state passing.  JavaScript
string primitives (trim, toLowerCase, split, startsWith, includes,
substring, first-occurrence replace) are modelled by structurally
recursive functions on `List Char` so that every definition evaluates by
kernel reduction.
-/

namespace MyWebGit

/-- Model of JavaScript truthiness for a value that is either a string or
undefined: `undefined` and the empty string are falsy. -/
def jsTruthy : Option String → Bool
  | none => false
  | some s => !(s == "")

/-- Model of the JavaScript expression `a || d` where `a` is a string or
undefined: yields `a` when truthy, otherwise the default `d`. -/
def jsOr (o : Option String) (d : String) : String :=
  match o with
  | none => d
  | some s => if s == "" then d else s

/-- Model of JavaScript `String.prototype.trim`: strips whitespace from
both ends. -/
def jsTrim (s : String) : String :=
  ⟨((s.data.dropWhile Char.isWhitespace).reverse.dropWhile Char.isWhitespace).reverse⟩

/-- Model of JavaScript `String.prototype.toLowerCase` (ASCII-adequate,
which covers the protected branch names). -/
def jsToLowerCase (s : String) : String :=
  ⟨s.data.map Char.toLower⟩

/-- Model of JavaScript `String.prototype.split` with a one-character
separator, at the character-list level. -/
def splitChar (sep : Char) : List Char → List (List Char)
  | [] => [[]]
  | c :: cs =>
    match splitChar sep cs with
    | [] => if c == sep then [[], []] else [[c]]
    | r :: rs => if c == sep then [] :: r :: rs else (c :: r) :: rs

/-- Model of the JavaScript idiom `path.split(sep).pop()`: the final
segment of the path. -/
def lastSegmentBy (sep : Char) (s : String) : String :=
  ⟨(splitChar sep s.data).getLastD []⟩

/-- Decides whether `sub` occurs as a contiguous segment of the list. -/
def hasSubseg (sub : List Char) : List Char → Bool
  | [] => sub.isEmpty
  | c :: cs => sub.isPrefixOf (c :: cs) || hasSubseg sub cs

/-- Model of JavaScript `String.prototype.includes`. -/
def jsIncludes (s sub : String) : Bool :=
  hasSubseg sub.data s.data

/-- Model of JavaScript `String.prototype.startsWith`. -/
def jsStartsWith (s pat : String) : Bool :=
  pat.data.isPrefixOf s.data

/-- Removes the first occurrence of `pat` from the list, as JavaScript
`String.prototype.replace` with a plain-string pattern and empty
replacement does. -/
def dropFirstOcc (pat : List Char) : List Char → List Char
  | [] => []
  | c :: cs =>
    if pat.isPrefixOf (c :: cs) then (c :: cs).drop pat.length
    else c :: dropFirstOcc pat cs

/-- Model of the JavaScript expression `s.replace(pat, two-quote-empty)`
with a plain-string pattern: removes the first occurrence of `pat`. -/
def jsReplaceFirst (s pat : String) : String :=
  ⟨dropFirstOcc pat.data s.data⟩

/-- Model of JavaScript `s.substring(0, n)`. -/
def jsSubstringTo (n : Nat) (s : String) : String :=
  ⟨s.data.take n⟩

/-- Outcome of a merge or rebase call in gitService.js: a success payload,
the conflict shape with success false and conflict true and the tool
message, or a propagated (thrown) error. -/
inductive MergeOutcome (α : Type) where
  | success (result : α)
  | conflict (message : String)
  | thrown (message : String)
deriving DecidableEq

/-- Options object accepted by GitService.getDiff: a staged-only flag, an
optional single file and an optional commit pair, each a string or
undefined. -/
structure DiffOptions where
  cached : Bool
  file : Option String
  commit1 : Option String
  commit2 : Option String
deriving DecidableEq

/-- One entry of the result list of GitService.deleteBranches. -/
structure DeleteResult where
  name : String
  success : Bool
  error : Option String
deriving DecidableEq

/-- Raw commit object as delivered by the underlying log call; every field
may be absent. -/
structure RawCommit where
  hash : Option String
  message : Option String
  author_name : Option String
  author : Option String
  author_email : Option String
  date : Option String
  refs : Option String
deriving DecidableEq

/-- Raw log object as delivered by the underlying log call. -/
structure RawLog where
  all : List RawCommit
  total : Nat
deriving DecidableEq

/-- Value of the refs field produced by GitService.getLog: either the raw
refs value was kept, or the fallback empty list was substituted. -/
inductive RefsField where
  | raw (s : String)
  | emptyList
deriving DecidableEq

/-- One normalized commit record produced by GitService.getLog. -/
structure CommitEntry where
  hash : String
  shortHash : String
  message : String
  author : String
  email : String
  date : String
  refs : RefsField
deriving DecidableEq

/-- Result shape of GitService.getLog. -/
structure LogResult where
  commits : List CommitEntry
  total : Nat
deriving DecidableEq

/-- Branch listing state of the repository as read by GitService after the
fetch-with-prune: all local branch names, the current branch name, and all
remote-tracking branch names (with their remote prefix). -/
structure RepoView where
  localAll : List String
  localCurrent : String
  remoteAll : List String

/-- One entry of the stale list built by GitService.getStaleBranches. -/
structure StaleBranchEntry where
  name : String
  remoteExists : Bool
deriving DecidableEq

/-- Result shape of GitService.getStaleBranches. -/
structure StaleResult where
  staleBranches : List StaleBranchEntry
  currentBranch : String

/-- Protected branch names from gitService.js (line 155). -/
def protectedBranches : List String := ["main", "master", "develop", "dev"]

/-- Remote branch names with the remote prefix removed, from
gitService.js lines 147 to 151: filter the remote refs on the prefix and
strip it with a first-occurrence replace. -/
def remoteBranchNamesOf (remote : String) (remoteAll : List String) : List String :=
  (remoteAll.filter (fun n => jsStartsWith n (remote ++ "/"))).map
    (fun n => jsReplaceFirst n (remote ++ "/"))

/-- The loop of gitService.js lines 157 to 171: keep every local branch
that is not the current branch, is not protected (compared lowercased) and
has no matching remote branch name; each kept branch is emitted with
remoteExists false. -/
def staleFrom (remote : String) (v : RepoView) : StaleResult :=
  let names := remoteBranchNamesOf remote v.remoteAll
  ⟨(v.localAll.filter (fun b =>
      !(b == v.localCurrent) &&
      !(protectedBranches.contains (jsToLowerCase b)) &&
      !(names.contains b))).map (fun b => ⟨b, false⟩),
   v.localCurrent⟩

/-- Typed failures of the repository registry (repoService.js throws plain
errors with fixed messages; the constructors stand for the messages
Not a valid git repository, Repository already added, Repository not
found, and a failed clone of the external tool). -/
inductive RegError where
  | invalidPath
  | duplicate
  | notFound
  | cloneFailed
deriving DecidableEq

/-- One registry record of repoService.js. -/
structure RepoRecord where
  id : String
  path : String
  name : String
  addedAt : String
  cloneUrl : Option String
deriving DecidableEq

/-- Replaces the first element satisfying `p` with its image under `f`:
the pure rendering of a JavaScript in-place mutation of the object found
by Array.prototype.find. -/
def setFirst {α : Type} (p : α → Bool) (f : α → α) : List α → List α
  | [] => []
  | a :: as => if p a then f a :: as else a :: setFirst p f as

/-- Result of RepoService.update, separating the in-memory array after the
call, whether save ran, and the returned value or failure. -/
structure UpdateOutcome where
  mem : List RepoRecord
  saved : Bool
  result : Except RegError RepoRecord

namespace GitService

/-- GitService.merge (gitService.js lines 349 to 370): a tool success
becomes the success payload; a tool failure whose message contains the
CONFLICT marker becomes the conflict return value; any other failure is
rethrown. -/
def merge {α : Type} (toolResult : Except String α) : MergeOutcome α :=
  match toolResult with
  | Except.ok r => MergeOutcome.success r
  | Except.error e =>
    if jsIncludes e "CONFLICT" then MergeOutcome.conflict e
    else MergeOutcome.thrown e

/-- GitService.rebase (gitService.js lines 375 to 389): same conflict
versus error classification as merge. -/
def rebase {α : Type} (toolResult : Except String α) : MergeOutcome α :=
  match toolResult with
  | Except.ok r => MergeOutcome.success r
  | Except.error e =>
    if jsIncludes e "CONFLICT" then MergeOutcome.conflict e
    else MergeOutcome.thrown e

/-- Argument list GitService.merge passes to the tool: the branch followed
by the modifier flags. -/
def mergeArgs (branch : String) (noFF squash : Bool) : List String :=
  branch :: ((if noFF then ["--no-ff"] else []) ++ (if squash then ["--squash"] else []))

/-- GitService.getDiff (gitService.js lines 311 to 325), rendered as the
argument list handed to the diff call of the tool: the branches of the
if-chain are, in source order, the cached flag, the single file, the
commit pair, and the bare working-tree diff. -/
def getDiff (o : DiffOptions) : List String :=
  if o.cached then ["--cached"]
  else if jsTruthy o.file then [o.file.getD ""]
  else if jsTruthy o.commit1 && jsTruthy o.commit2 then [o.commit1.getD "", o.commit2.getD ""]
  else []

/-- One iteration of the loop of GitService.deleteBranches: the try block
records success for the name, the catch block records the failure message
for the name. -/
def deleteOne (del : String → Bool → Except String Unit) (force : Bool) (n : String) : DeleteResult :=
  match del n force with
  | Except.ok _ => ⟨n, true, none⟩
  | Except.error e => ⟨n, false, some e⟩

/-- GitService.deleteBranches (gitService.js lines 182 to 193): iterate
over the names, attempting each deletion inside its own try-catch and
collecting one result per name. -/
def deleteBranches (del : String → Bool → Except String Unit) (force : Bool) : List String → List DeleteResult
  | [] => []
  | n :: rest => deleteOne del force n :: deleteBranches del force rest

/-- Field mapping of GitService.getLog for one raw commit, with `now`
standing for the current-time fallback of the date field. -/
def mapLogCommit (now : String) (c : RawCommit) : CommitEntry :=
  { hash := jsOr c.hash ""
  , shortHash := if jsTruthy c.hash then jsSubstringTo 7 (c.hash.getD "") else ""
  , message := jsOr c.message ""
  , author := jsOr c.author_name (jsOr c.author "Unknown")
  , email := jsOr c.author_email ""
  , date := jsOr c.date now
  , refs := if jsTruthy c.refs then RefsField.raw (c.refs.getD "") else RefsField.emptyList }

/-- GitService.getLog (gitService.js lines 281 to 306): on a tool success
the commits are normalized; on any tool failure the catch block returns
the empty result with total zero instead of rethrowing. -/
def getLog (now : String) (toolResult : Except String RawLog) : LogResult :=
  match toolResult with
  | Except.ok log => ⟨log.all.map (mapLogCommit now), log.total⟩
  | Except.error _ => ⟨[], 0⟩

/-- GitService.getStaleBranches (gitService.js lines 135 to 177): first
the fetch with prune runs against the given remote, then the local and
remote branch listings are read from the resulting repository state and
the stale list is computed from them.  The repository state is abstract;
`fetchPrune` and `view` are the two tool interactions. -/
def getStaleBranches {σ : Type} (fetchPrune : String → σ → σ) (view : σ → RepoView)
    (remote : String) (st : σ) : σ × StaleResult :=
  let st1 := fetchPrune remote st
  (st1, staleFrom remote (view st1))

/-- Mode table of GitService.resetTo (gitService.js lines 480 to 488): the
object lookup yields the flag list for the three known modes and is
undefined otherwise. -/
def resetModes (mode : String) : Option (List String) :=
  if mode == "soft" then some ["--soft"]
  else if mode == "mixed" then some ["--mixed"]
  else if mode == "hard" then some ["--hard"]
  else none

/-- GitService.resetTo rendered as the argument list handed to the reset
call of the tool: spreading an undefined mode entry throws a TypeError,
modelled as the error case. -/
def resetTo (commit : String) (mode : String) : Except String (List String) :=
  match resetModes mode with
  | some flags => Except.ok (flags ++ [commit])
  | none => Except.error "TypeError"

end GitService

/-- Result of the commit route handler: either the 400 validation
rejection issued before the tool runs, or the message forwarded to
GitService.commit (which invokes the tool). -/
inductive CommitRouteResult where
  | rejected (status : Nat) (error : String)
  | forwarded (message : String)
deriving DecidableEq

/-- Result of the reset route handler: the 400 validation rejection, a
reset dispatched to the tool with the given arguments, or a caught
failure. -/
inductive ResetRouteResult where
  | validationError (message : String)
  | resetRun (args : List String)
  | failed (message : String)
deriving DecidableEq

namespace Routes

/-- POST /api/git/commit (routes, lines 128 to 139): a falsy message is
rejected with status 400 before GitService.commit is called; otherwise
the message is forwarded unchanged. -/
def commitRoute (message : Option String) : CommitRouteResult :=
  if !(jsTruthy message) then CommitRouteResult.rejected 400 "Commit message is required"
  else CommitRouteResult.forwarded (message.getD "")

/-- POST /api/git/reset (routes, lines 473 to 484): a falsy commit is
rejected with status 400; otherwise resetTo runs with the supplied mode
defaulted to mixed by the JavaScript or-expression. -/
def resetRoute (commit mode : Option String) : ResetRouteResult :=
  if !(jsTruthy commit) then ResetRouteResult.validationError "Commit is required"
  else
    match GitService.resetTo (commit.getD "") (jsOr mode "mixed") with
    | Except.ok args => ResetRouteResult.resetRun args
    | Except.error e => ResetRouteResult.failed e

end Routes

namespace RepoService

/-- RepoService.add (repoService.js lines 662 to 691): trim the path,
reject an invalid working copy, reject an already-registered path, then
append the new record and persist.  `isValid` is the external validity
checker, `newId` the generated id and `now` the timestamp. -/
def add (isValid : String → Bool) (newId now : String) (repos : List RepoRecord)
    (path : String) (name : Option String) : List RepoRecord × Except RegError RepoRecord :=
  let normalizedPath := jsTrim path
  if !(isValid normalizedPath) then (repos, Except.error RegError.invalidPath)
  else
    match repos.find? (fun r => r.path == normalizedPath) with
    | some _ => (repos, Except.error RegError.duplicate)
    | none =>
      let repo : RepoRecord :=
        ⟨newId, normalizedPath, jsOr name (lastSegmentBy '/' normalizedPath), now, none⟩
      (repos ++ [repo], Except.ok repo)

/-- RepoService.remove (repoService.js lines 696 to 708): drop the record
with the given id, failing when none matches. -/
def remove (repos : List RepoRecord) (id : String) : List RepoRecord × Except RegError Unit :=
  match repos.findIdx? (fun r => r.id == id) with
  | none => (repos, Except.error RegError.notFound)
  | some i => (repos.eraseIdx i, Except.ok ())

/-- RepoService.update (repoService.js lines 713 to 732): find the record,
mutate its name when a name is supplied, then check a supplied path with
the validity checker, throwing before the path mutation and the save when
the check fails.  The outcome keeps the in-memory array and whether save
ran, to state what a thrown failure leaves behind. -/
def update (isValid : String → Bool) (repos : List RepoRecord) (id : String)
    (uname upath : Option String) : UpdateOutcome :=
  match repos.find? (fun r => r.id == id) with
  | none => ⟨repos, false, Except.error RegError.notFound⟩
  | some r =>
    let r1 := if jsTruthy uname then { r with name := uname.getD "" } else r
    if jsTruthy upath then
      if isValid (upath.getD "") then
        let r2 := { r1 with path := upath.getD "" }
        ⟨setFirst (fun x => x.id == id) (fun _ => r2) repos, true, Except.ok r2⟩
      else
        ⟨setFirst (fun x => x.id == id) (fun _ => r1) repos, false, Except.error RegError.invalidPath⟩
    else
      ⟨setFirst (fun x => x.id == id) (fun _ => r1) repos, true, Except.ok r1⟩

/-- RepoService.clone (repoService.js lines 737 to 754): run the external
clone (its success is the parameter `cloneOk`), then append a record for
the target path with no validity and no duplicate check. -/
def clone (cloneOk : Bool) (newId now : String) (repos : List RepoRecord)
    (url targetPath : String) (name : Option String) : List RepoRecord × Except RegError RepoRecord :=
  if cloneOk then
    let repo : RepoRecord :=
      ⟨newId, targetPath, jsOr name (lastSegmentBy '/' targetPath), now, some url⟩
    (repos ++ [repo], Except.ok repo)
  else (repos, Except.error RegError.cloneFailed)

end RepoService

/-- Diff selector precedence in the order the specification words it.
Modelled from the spec for the refinement comparison with
GitService.getDiff: commit pair first, then single file, then the staged
flag, then the bare working-tree diff. -/
def getDiffClaimed (o : DiffOptions) : List String :=
  if jsTruthy o.commit1 && jsTruthy o.commit2 then [o.commit1.getD "", o.commit2.getD ""]
  else if jsTruthy o.file then [o.file.getD ""]
  else if o.cached then ["--cached"]
  else []

/-- Concrete branch-deletion tool used by the bulk-deletion witness: the
name bad fails, every other name succeeds. -/
def exDeleteTool (n : String) (_force : Bool) : Except String Unit :=
  if n == "bad" then Except.error "branch not found" else Except.ok ()

/-- Concrete registry record used by the registry counterexample and
witnesses. -/
def exRepo : RepoRecord := ⟨"id1", "/tmp/r", "r", "t0", none⟩

/-! ### Helper lemmas about the JavaScript string models -/

theorem dropFirstOcc_of_isPrefixOf (pat l : List Char) (h : pat.isPrefixOf l = true) :
    dropFirstOcc pat l = l.drop pat.length := by
  cases l with
  | nil =>
    cases pat with
    | nil => rfl
    | cons c cs => simp [List.isPrefixOf] at h
  | cons c cs => simp [dropFirstOcc, h]

theorem jsStartsWith_append (pre rest : String) : jsStartsWith (pre ++ rest) pre = true := by
  unfold jsStartsWith
  rw [String.data_append]
  exact List.isPrefixOf_iff_prefix.mpr (List.prefix_append _ _)

theorem jsReplaceFirst_append (pre rest : String) : jsReplaceFirst (pre ++ rest) pre = rest := by
  apply String.ext
  show dropFirstOcc pre.data (pre ++ rest).data = rest.data
  rw [String.data_append,
    dropFirstOcc_of_isPrefixOf pre.data _ (List.isPrefixOf_iff_prefix.mpr (List.prefix_append _ _))]
  exact List.drop_left pre.data rest.data

theorem eq_append_of_jsStartsWith (n pre : String) (h : jsStartsWith n pre = true) :
    n = pre ++ jsReplaceFirst n pre := by
  have hp : pre.data <+: n.data := List.isPrefixOf_iff_prefix.mp h
  apply String.ext
  rw [String.data_append]
  show n.data = pre.data ++ (dropFirstOcc pre.data n.data)
  rw [dropFirstOcc_of_isPrefixOf pre.data n.data h]
  exact (List.prefix_iff_eq_append.mp hp).symm

theorem mem_remoteBranchNamesOf (remote b : String) (all : List String) :
    b ∈ remoteBranchNamesOf remote all ↔ (remote ++ "/" ++ b) ∈ all := by
  unfold remoteBranchNamesOf
  simp only [List.mem_map, List.mem_filter]
  constructor
  · rintro ⟨n, ⟨hmem, hpre⟩, hstrip⟩
    have he := eq_append_of_jsStartsWith n (remote ++ "/") hpre
    rw [hstrip] at he
    rwa [← he]
  · intro hmem
    exact ⟨remote ++ "/" ++ b, ⟨hmem, jsStartsWith_append _ _⟩, jsReplaceFirst_append _ _⟩

theorem contains_eq_false_iff (l : List String) (a : String) :
    (l.contains a = false) ↔ a ∉ l := by
  simp [List.contains]

theorem mem_staleFrom (remote : String) (v : RepoView) (b : String) :
    b ∈ (staleFrom remote v).staleBranches.map StaleBranchEntry.name ↔
      (b ∈ v.localAll ∧ b ≠ v.localCurrent ∧
       jsToLowerCase b ∉ protectedBranches ∧ (remote ++ "/" ++ b) ∉ v.remoteAll) := by
  unfold staleFrom
  simp [List.mem_filter, Bool.not_eq_true', beq_eq_false_iff_ne,
    contains_eq_false_iff, mem_remoteBranchNamesOf, and_assoc]
  constructor
  · rintro ⟨a, ha, h1, h2, h3, rfl⟩
    exact ⟨ha, h1, h2, h3⟩
  · rintro ⟨ha, h1, h2, h3⟩
    exact ⟨b, ha, h1, h2, h3, rfl⟩

/-! ### Helper lemmas about lists -/

theorem find?_isSome_of_filter_length_one {α : Type} (p : α → Bool) (l : List α)
    (h : (l.filter p).length = 1) : ∃ x, l.find? p = some x := by
  have h0 : l.filter p ≠ [] := by
    intro hnil
    rw [hnil] at h
    simp at h
  obtain ⟨x, hx⟩ := List.exists_mem_of_ne_nil _ h0
  have hx2 := List.mem_filter.mp hx
  have hs : (l.find? p).isSome := List.find?_isSome.mpr ⟨x, hx2.1, hx2.2⟩
  exact Option.isSome_iff_exists.mp hs

theorem mem_setFirst_of_find? {α : Type} (p : α → Bool) (f : α → α) (l : List α) (r : α)
    (h : l.find? p = some r) : f r ∈ setFirst p f l := by
  induction l with
  | nil => simp [List.find?] at h
  | cons a as ih =>
    by_cases hpa : p a = true
    · rw [List.find?_cons_of_pos _ hpa] at h
      injection h with h
      subst h
      simp [setFirst, hpa]
    · rw [List.find?_cons_of_neg _ hpa] at h
      simp [setFirst, hpa]
      exact Or.inr (ih h)

theorem deleteBranches_length (del : String → Bool → Except String Unit) (force : Bool)
    (names : List String) :
    (GitService.deleteBranches del force names).length = names.length := by
  induction names with
  | nil => rfl
  | cons n rest ih => simp [GitService.deleteBranches, ih]

theorem deleteBranches_get? (del : String → Bool → Except String Unit) (force : Bool)
    (names : List String) (i : Nat) (n : String) (h : names.get? i = some n) :
    (GitService.deleteBranches del force names).get? i =
      some (GitService.deleteOne del force n) := by
  induction names generalizing i with
  | nil => simp at h
  | cons m rest ih =>
    cases i with
    | zero =>
      simp at h
      subst h
      rfl
    | succ j =>
      rw [List.get?_cons_succ] at h
      show (GitService.deleteOne del force m ::
        GitService.deleteBranches del force rest).get? (j + 1) = _
      rw [List.get?_cons_succ]
      exact ih j h

/-! ### Claim theorems -/

/-- C1: for every merge or rebase invocation whose underlying-tool failure
text contains the CONFLICT marker, the operation returns the conflict
shape (success false, conflict true, message) as a normal return value
rather than throwing; every other underlying-tool failure propagates as a
thrown error, and a successful merge returns the success payload. -/
theorem merge_rebase_conflict_classification {α : Type} (r : α) (e : String) :
    GitService.merge (Except.ok r) = MergeOutcome.success r ∧
    GitService.rebase (Except.ok r) = MergeOutcome.success r ∧
    (jsIncludes e "CONFLICT" = true →
      GitService.merge (Except.error e : Except String α) = MergeOutcome.conflict e ∧
      GitService.rebase (Except.error e : Except String α) = MergeOutcome.conflict e) ∧
    (jsIncludes e "CONFLICT" = false →
      GitService.merge (Except.error e : Except String α) = MergeOutcome.thrown e ∧
      GitService.rebase (Except.error e : Except String α) = MergeOutcome.thrown e) := by
  refine ⟨rfl, rfl, fun h => ?_, fun h => ?_⟩ <;>
    exact ⟨by simp [GitService.merge, h], by simp [GitService.rebase, h]⟩

/-- Witness for C1 at a concrete conflicting tool message. -/
theorem merge_rebase_conflict_classification_witness :
    GitService.merge (Except.error "CONFLICT (content): Merge conflict in a.txt" :
        Except String Unit) =
      MergeOutcome.conflict "CONFLICT (content): Merge conflict in a.txt" ∧
    GitService.rebase (Except.error "CONFLICT (content): Merge conflict in a.txt" :
        Except String Unit) =
      MergeOutcome.conflict "CONFLICT (content): Merge conflict in a.txt" :=
  (merge_rebase_conflict_classification ()
    "CONFLICT (content): Merge conflict in a.txt").2.2.1 (by decide)

/-- C2: getStaleBranches first performs the fetch with prune and then,
over the repository state that results, returns exactly the local
branches that are not the current branch, whose lowercased name is not in
the protected set, and that have no remote-tracking branch of the same
name under the given remote; it also returns the current branch name. -/
theorem getStaleBranches_characterization {σ : Type} (fetchPrune : String → σ → σ)
    (view : σ → RepoView) (remote : String) (st : σ) (b : String) :
    (GitService.getStaleBranches fetchPrune view remote st).1 = fetchPrune remote st ∧
    (GitService.getStaleBranches fetchPrune view remote st).2.currentBranch =
      (view (fetchPrune remote st)).localCurrent ∧
    (b ∈ ((GitService.getStaleBranches fetchPrune view remote st).2.staleBranches.map
        StaleBranchEntry.name) ↔
      (b ∈ (view (fetchPrune remote st)).localAll ∧
       b ≠ (view (fetchPrune remote st)).localCurrent ∧
       jsToLowerCase b ∉ (["main", "master", "develop", "dev"] : List String) ∧
       (remote ++ "/" ++ b) ∉ (view (fetchPrune remote st)).remoteAll)) :=
  ⟨rfl, rfl, mem_staleFrom remote (view (fetchPrune remote st)) b⟩

/-- C3 counterexample: with every selector supplied at once, getDiff uses
the staged-only flag, not the commit pair the claimed precedence
requires, so the claimed precedence is false on the code. -/
theorem getDiff_claimed_precedence_false :
    GitService.getDiff ⟨true, some "a.txt", some "c1", some "c2"⟩ = ["--cached"] ∧
    getDiffClaimed ⟨true, some "a.txt", some "c1", some "c2"⟩ = ["c1", "c2"] ∧
    ¬ GitService.getDiff ⟨true, some "a.txt", some "c1", some "c2"⟩ =
        getDiffClaimed ⟨true, some "a.txt", some "c1", some "c2"⟩ := by
  decide

/-- C3 amended: the actual selector precedence of getDiff is staged-only
over single-file over commit-pair over the bare working-tree diff. -/
theorem getDiff_precedence (o : DiffOptions) :
    (o.cached = true → GitService.getDiff o = ["--cached"]) ∧
    (o.cached = false → jsTruthy o.file = true →
      GitService.getDiff o = [o.file.getD ""]) ∧
    (o.cached = false → jsTruthy o.file = false →
      jsTruthy o.commit1 = true → jsTruthy o.commit2 = true →
      GitService.getDiff o = [o.commit1.getD "", o.commit2.getD ""]) ∧
    (o.cached = false → jsTruthy o.file = false →
      (jsTruthy o.commit1 && jsTruthy o.commit2) = false →
      GitService.getDiff o = []) := by
  refine ⟨fun h1 => ?_, fun h1 h2 => ?_, fun h1 h2 h3 h4 => ?_, fun h1 h2 h3 => ?_⟩
  · simp [GitService.getDiff, h1]
  · simp [GitService.getDiff, h1, h2]
  · simp [GitService.getDiff, h1, h2, h3, h4]
  · simp [GitService.getDiff, h1, h2, h3]

/-- Witness for the amended C3 at a fully populated options object. -/
theorem getDiff_precedence_witness :
    GitService.getDiff ⟨true, some "a.txt", some "c1", some "c2"⟩ = ["--cached"] :=
  (getDiff_precedence ⟨true, some "a.txt", some "c1", some "c2"⟩).1 rfl

/-- C4: bulk branch deletion attempts every name independently and
returns one result entry per input name; the result list has the length
of the input list, its entry at each index is the per-name outcome for
the name at that index, carrying that name, success when the underlying
deletion succeeded and the failure message otherwise — so a failure on
one name never prevents attempting the remaining names. -/
theorem deleteBranches_attempts_every_name (del : String → Bool → Except String Unit)
    (force : Bool) (names : List String) (i : Nat) (n : String)
    (h : names.get? i = some n) :
    (GitService.deleteBranches del force names).length = names.length ∧
    (GitService.deleteBranches del force names).get? i =
      some (GitService.deleteOne del force n) ∧
    (GitService.deleteOne del force n).name = n ∧
    (∀ u, del n force = Except.ok u →
      GitService.deleteOne del force n = ⟨n, true, none⟩) ∧
    (∀ msg, del n force = Except.error msg →
      GitService.deleteOne del force n = ⟨n, false, some msg⟩) := by
  refine ⟨deleteBranches_length del force names, deleteBranches_get? del force names i n h,
    ?_, fun u hu => ?_, fun msg hm => ?_⟩
  · cases hd : del n force <;> simp [GitService.deleteOne, hd]
  · simp [GitService.deleteOne, hu]
  · simp [GitService.deleteOne, hm]

/-- Witness for C4: three names of which exactly one is invalid yield
three entries, the middle one failed with the tool message, the entry for
the failing name carrying success false. -/
theorem deleteBranches_attempts_every_name_witness :
    (GitService.deleteBranches exDeleteTool false ["a", "bad", "c"]).length =
      (["a", "bad", "c"] : List String).length ∧
    (GitService.deleteBranches exDeleteTool false ["a", "bad", "c"]).get? 1 =
      some (GitService.deleteOne exDeleteTool false "bad") ∧
    GitService.deleteOne exDeleteTool false "bad" = ⟨"bad", false, some "branch not found"⟩ := by
  have h := deleteBranches_attempts_every_name exDeleteTool false ["a", "bad", "c"] 1 "bad" rfl
  exact ⟨h.1, h.2.1, h.2.2.2.2 "branch not found" rfl⟩

/-- C5: a commit request with an empty or missing message is rejected by
the route with a 400 validation failure before GitService.commit (and so
the underlying tool) is ever invoked; a commit with a non-empty message
is forwarded to the tool unchanged. -/
theorem commitRoute_rejects_empty_message :
    Routes.commitRoute none = CommitRouteResult.rejected 400 "Commit message is required" ∧
    Routes.commitRoute (some "") = CommitRouteResult.rejected 400 "Commit message is required" ∧
    ∀ m : String, m ≠ "" → Routes.commitRoute (some m) = CommitRouteResult.forwarded m := by
  refine ⟨rfl, rfl, fun m hm => ?_⟩
  simp [Routes.commitRoute, jsTruthy, hm]

/-- Witness for C5 at a concrete non-empty message. -/
theorem commitRoute_rejects_empty_message_witness :
    Routes.commitRoute (some "fix bug") = CommitRouteResult.forwarded "fix bug" :=
  commitRoute_rejects_empty_message.2.2 "fix bug" (by decide)

/-- C6: on every underlying-tool failure, getLog returns the empty result
set (no commits, total zero) instead of propagating the error; as a total
function of the tool outcome it never throws. -/
theorem getLog_failure_returns_empty (now e : String) :
    GitService.getLog now (Except.error e) = ⟨[], 0⟩ := rfl

/-- C7 counterexample: clone performs no duplicate check, so cloning onto
an already-registered path succeeds (it does not fail with Duplicate) and
leaves two registry records with the same path, refuting the claimed
invariant for the clone operation. -/
theorem registry_path_uniqueness_false :
    ((RepoService.clone true "id2" "t1" [exRepo] "https://example.com/r.git" "/tmp/r" none).1.map
      RepoRecord.path = ["/tmp/r", "/tmp/r"]) ∧
    (RepoService.clone true "id2" "t1" [exRepo] "https://example.com/r.git" "/tmp/r" none).2 =
      Except.ok ⟨"id2", "/tmp/r", "r", "t1", some "https://example.com/r.git"⟩ :=
  ⟨rfl, rfl⟩

/-- C7 amended: the uniqueness of normalized paths is enforced by add
alone — an add whose trimmed path passes the validity check but equals an
already-registered path fails with Duplicate and leaves the registry
unchanged with its single record for that path; update and clone perform
no duplicate check and can introduce a second record with a registered
path. -/
theorem add_rejects_duplicate_path (isValid : String → Bool) (newId now : String)
    (repos : List RepoRecord) (path : String) (name : Option String)
    (hv : isValid (jsTrim path) = true)
    (hone : (repos.filter (fun r => r.path == jsTrim path)).length = 1) :
    RepoService.add isValid newId now repos path name =
      (repos, Except.error RegError.duplicate) ∧
    ((RepoService.add isValid newId now repos path name).1.filter
      (fun r => r.path == jsTrim path)).length = 1 := by
  obtain ⟨x, hx⟩ := find?_isSome_of_filter_length_one _ repos hone
  have hmain : RepoService.add isValid newId now repos path name =
      (repos, Except.error RegError.duplicate) := by
    simp [RepoService.add, hv, hx]
  exact ⟨hmain, by rw [hmain]; exact hone⟩

/-- Witness for the amended C7: adding the already-registered path again
fails with Duplicate and the registry keeps exactly one record for it. -/
theorem add_rejects_duplicate_path_witness :
    RepoService.add (fun _ => true) "id9" "t9" [exRepo] "/tmp/r" none =
      ([exRepo], Except.error RegError.duplicate) ∧
    ((RepoService.add (fun _ => true) "id9" "t9" [exRepo] "/tmp/r" none).1.filter
      (fun r => r.path == jsTrim "/tmp/r")).length = 1 :=
  add_rejects_duplicate_path (fun _ => true) "id9" "t9" [exRepo] "/tmp/r" none rfl (by decide)

/-- C8: for every path that fails the validity checker, add fails with
InvalidPath and the registry is unchanged — no record is created and the
list length is the same before and after the failed call. -/
theorem add_invalid_path_leaves_registry_unchanged (isValid : String → Bool)
    (newId now : String) (repos : List RepoRecord) (path : String) (name : Option String)
    (hv : isValid (jsTrim path) = false) :
    RepoService.add isValid newId now repos path name =
      (repos, Except.error RegError.invalidPath) ∧
    (RepoService.add isValid newId now repos path name).1.length = repos.length := by
  have hmain : RepoService.add isValid newId now repos path name =
      (repos, Except.error RegError.invalidPath) := by
    simp [RepoService.add, hv]
  exact ⟨hmain, by rw [hmain]⟩

/-- Witness for C8 at a concrete invalid path. -/
theorem add_invalid_path_leaves_registry_unchanged_witness :
    RepoService.add (fun _ => false) "id3" "t3" [exRepo] "/not/a/repo" none =
      ([exRepo], Except.error RegError.invalidPath) ∧
    (RepoService.add (fun _ => false) "id3" "t3" [exRepo] "/not/a/repo" none).1.length =
      ([exRepo] : List RepoRecord).length :=
  add_invalid_path_leaves_registry_unchanged (fun _ => false) "id3" "t3" [exRepo]
    "/not/a/repo" none rfl

/-- C9: a reset request that supplies a target commit but no mode is
performed in mixed mode; a supplied mode of soft, mixed or hard is used
as given, and a supplied mode outside the table makes the operation fail
instead of resetting. -/
theorem resetRoute_default_mixed (c : String) (hc : c ≠ "") :
    Routes.resetRoute (some c) none = ResetRouteResult.resetRun ["--mixed", c] ∧
    Routes.resetRoute (some c) (some "soft") = ResetRouteResult.resetRun ["--soft", c] ∧
    Routes.resetRoute (some c) (some "mixed") = ResetRouteResult.resetRun ["--mixed", c] ∧
    Routes.resetRoute (some c) (some "hard") = ResetRouteResult.resetRun ["--hard", c] ∧
    ∀ m : String, m ≠ "" → GitService.resetModes m = none →
      Routes.resetRoute (some c) (some m) = ResetRouteResult.failed "TypeError" := by
  have hct : jsTruthy (some c) = true := by simp [jsTruthy, hc]
  refine ⟨?_, ?_, ?_, ?_, fun m hm hmode => ?_⟩
  · simp [Routes.resetRoute, hct, jsOr, GitService.resetTo, GitService.resetModes]
  · simp [Routes.resetRoute, hct, jsOr, GitService.resetTo, GitService.resetModes]
  · simp [Routes.resetRoute, hct, jsOr, GitService.resetTo, GitService.resetModes]
  · simp [Routes.resetRoute, hct, jsOr, GitService.resetTo, GitService.resetModes]
  · simp [Routes.resetRoute, hct, jsOr, hm, GitService.resetTo, hmode]

/-- Witness for C9 at a concrete commit, covering the default, an
explicit mode and an unknown mode. -/
theorem resetRoute_default_mixed_witness :
    Routes.resetRoute (some "abc1234") none = ResetRouteResult.resetRun ["--mixed", "abc1234"] ∧
    Routes.resetRoute (some "abc1234") (some "hard") =
      ResetRouteResult.resetRun ["--hard", "abc1234"] ∧
    Routes.resetRoute (some "abc1234") (some "keep") = ResetRouteResult.failed "TypeError" := by
  have h := resetRoute_default_mixed "abc1234" (by decide)
  exact ⟨h.1, h.2.2.2.1, h.2.2.2.2 "keep" (by decide) rfl⟩

/-- C10: an update supplying both a new display name and a path that
fails the validity checker fails with InvalidPath and nothing is saved to
the durable store, but the in-memory record already carries the new name —
the name mutation is not rolled back. -/
theorem update_name_change_survives_invalid_path (isValid : String → Bool)
    (repos : List RepoRecord) (id nm p : String) (r : RepoRecord)
    (hfind : repos.find? (fun x => x.id == id) = some r)
    (hnm : nm ≠ "") (hp : p ≠ "") (hv : isValid p = false) :
    RepoService.update isValid repos id (some nm) (some p) =
      ⟨setFirst (fun x => x.id == id) (fun _ => { r with name := nm }) repos, false,
        Except.error RegError.invalidPath⟩ ∧
    { r with name := nm } ∈ (RepoService.update isValid repos id (some nm) (some p)).mem := by
  have hmain : RepoService.update isValid repos id (some nm) (some p) =
      ⟨setFirst (fun x => x.id == id) (fun _ => { r with name := nm }) repos, false,
        Except.error RegError.invalidPath⟩ := by
    simp only [RepoService.update, hfind]
    simp [jsTruthy, hnm, hp, hv]
  refine ⟨hmain, ?_⟩
  rw [hmain]
  exact mem_setFirst_of_find? _ _ repos r hfind

/-- Witness for C10 at a concrete registry: the rename is visible in
memory even though the call failed and nothing was saved. -/
theorem update_name_change_survives_invalid_path_witness :
    RepoService.update (fun _ => false) [exRepo] "id1" (some "newname") (some "/bad") =
      ⟨setFirst (fun x => x.id == "id1") (fun _ => { exRepo with name := "newname" }) [exRepo],
        false, Except.error RegError.invalidPath⟩ ∧
    { exRepo with name := "newname" } ∈
      (RepoService.update (fun _ => false) [exRepo] "id1" (some "newname") (some "/bad")).mem :=
  update_name_change_survives_invalid_path (fun _ => false) [exRepo] "id1" "newname" "/bad"
    exRepo rfl (by decide) (by decide) rfl

end MyWebGit
